import Mathlib

/-!
Formal model of the data-access layer and HTTP route handlers of the
Nuclear application, as documented in this repository
(docs/prisma-abstraction/*.md, the database schema and the API route code
in the development docs).  Database tables are modelled as lists of rows,
timestamps as natural numbers, and the asynchronous data-access functions
as pure functions from the database state.  Fallible operations return
`Except`; the random choice made by the random-selection utilities is
modelled by an explicit index argument.
-/

namespace Nuclear

/-- User mode enum (prisma schema `enum UserMode`). -/
inductive UserMode where
  | STUDENT
  | TEACHER
  | ADMIN
  deriving DecidableEq, Repr

/-- User row (prisma schema `model User`); `updatedAt` carries the
`@updatedAt` attribute, so prisma rewrites it on every update. -/
structure User where
  id : String
  email : String
  name : Option String
  mode : UserMode
  createdAt : Nat
  updatedAt : Nat
  deriving DecidableEq, Repr

/-- Block row (prisma schema `model Block`). -/
structure Block where
  id : String
  title : String
  content : String
  authorId : String
  folderId : Option String
  published : Bool
  createdAt : Nat
  updatedAt : Nat
  deriving DecidableEq, Repr

/-- Folder row (prisma schema `model Folder`); `parentId` is the
self-referential foreign key of the folder hierarchy. -/
structure Folder where
  id : String
  name : String
  description : Option String
  authorId : String
  parentId : Option String
  createdAt : Nat
  updatedAt : Nat
  deriving DecidableEq, Repr

/-- Topic row (prisma schema `model Topic`). -/
structure Topic where
  id : String
  name : String
  description : Option String
  blockId : Option String
  examples : Option String
  createdAt : Nat
  updatedAt : Nat
  deriving DecidableEq, Repr

/-- FillInTheBlank row (prisma schema `model FillInTheBlank`);
`difficulty` is kept as an optional string. -/
structure FillInTheBlank where
  id : String
  sentence : String
  answer : String
  blockId : Option String
  hint : Option String
  difficulty : Option String
  createdAt : Nat
  updatedAt : Nat
  deriving DecidableEq, Repr

/-- PointsUpdate row (prisma schema `model PointsUpdate`). -/
structure PointsUpdate where
  id : String
  points : Int
  blockId : Option String
  reason : Option String
  userId : Option String
  createdAt : Nat
  updatedAt : Nat
  deriving DecidableEq, Repr

/-- Module-scoped error wrapping a message (class `PointsUpdateError`). -/
structure PointsUpdateError where
  message : String
  deriving DecidableEq, Repr

/-- Module-scoped error wrapping a message (class `UserError`). -/
structure UserError where
  message : String
  deriving DecidableEq, Repr

/-! ## Points aggregation (points-update.md) -/

/-- Modelled from the spec: the implementation of `lib/pointsUpdate.ts` is
not part of this repository (the docs give only the signature of
`getTotalPointsForBlock`).  Per the spec, total-points-per-block uses
database-side aggregation; this is prisma
`aggregate({ _sum: { points }, where: { blockId } })`, whose SQL SUM over
zero rows is NULL (modelled `none`). -/
def prismaSumPointsForBlock (db : List PointsUpdate) (blockId : String) : Option Int :=
  let rows := db.filter (fun p => p.blockId == some blockId)
  if rows.isEmpty then none else some ((rows.map (fun p => p.points)).sum)

/-- Modelled from the spec: `getTotalPointsForBlock(blockId)` coalesces the
aggregate result to 0 (`result._sum.points ?? 0`). -/
def getTotalPointsForBlock (db : List PointsUpdate) (blockId : String) : Int :=
  (prismaSumPointsForBlock db blockId).getD 0

/-! ## Case-insensitive substring search (topic.md) -/

/-- Lower-cased character list of a string. -/
def lowerChars (s : String) : List Char := s.data.map Char.toLower

/-- Case-insensitive substring test: does `needle` occur inside `hay`
after lower-casing both? -/
def containsCI (hay needle : String) : Bool :=
  (lowerChars hay).tails.any (fun t => (lowerChars needle).isPrefixOf t)

/-- Modelled from the spec: the implementation of `searchTopicsByName`
(`lib/topic.ts`) is not part of this repository; the docs specify a
case-insensitive name search, i.e. prisma
`findMany({ where: { name: { contains: searchTerm, mode: insensitive } } })`. -/
def searchTopicsByName (db : List Topic) (searchTerm : String) : List Topic :=
  db.filter (fun t => containsCI t.name searchTerm)

/-! ## Random selection (fill-in-the-blank.md) -/

/-- Modelled from the spec: the implementation of
`getRandomFillInTheBlankByBlock` (`lib/fillInTheBlank.ts`) is not part of
this repository; the docs specify random single-record selection over the
rows filtered by `blockId`.  The random outcome is modelled by the index
argument `k`: the selection picks position `k % length` of the filtered
rows, and returns `none` when the block has no rows (for an empty list
`k % 0 = k` is out of range, so the lookup is `none`). -/
def getRandomFillInTheBlankByBlock (db : List FillInTheBlank) (blockId : String)
    (k : Nat) : Option FillInTheBlank :=
  let rows := db.filter (fun f => f.blockId == some blockId)
  rows[k % rows.length]?

/-! ## createPointsUpdate validation (points-update.md) -/

/-- Existence probe for blocks (`blockExists`). -/
def blockExists (blocks : List Block) (id : String) : Bool :=
  (blocks.find? (fun b => b.id == id)).isSome

/-- Existence probe for users (`userExists`). -/
def userExists (users : List User) (id : String) : Bool :=
  (users.find? (fun u => u.id == id)).isSome

/-- Creation input for PointsUpdate (`CreatePointsUpdateData`). -/
structure CreatePointsUpdateData where
  points : Int
  blockId : Option String
  reason : Option String
  userId : Option String
  deriving DecidableEq, Repr

/-- JavaScript truthiness of an optional string: `null`/`undefined` and
the empty string are falsy. -/
def jsTruthy (s : Option String) : Option String :=
  match s with
  | none => none
  | some v => if v = "" then none else some v

/-- Modelled from the spec: the implementation of `createPointsUpdate`
(`lib/pointsUpdate.ts`) is not part of this repository; modelled from the
documented error scenarios (negative points or a non-existent block or
user reject with `PointsUpdateError`) and the points-validation best
practice of points-update.md (negative and over-10000 values rejected;
points are integers by type here).  The new row id is the generated cuid,
`now` the creation time. -/
def createPointsUpdate (blocks : List Block) (users : List User)
    (db : List PointsUpdate) (data : CreatePointsUpdateData)
    (newId : String) (now : Nat) :
    Except PointsUpdateError (PointsUpdate × List PointsUpdate) :=
  if data.points < 0 then .error ⟨"Points cannot be negative"⟩
  else if 10000 < data.points then .error ⟨"Points value too high"⟩
  else if (jsTruthy data.blockId).any (fun b => !blockExists blocks b) then
    .error ⟨"Block does not exist"⟩
  else if (jsTruthy data.userId).any (fun u => !userExists users u) then
    .error ⟨"User does not exist"⟩
  else
    let row : PointsUpdate :=
      ⟨newId, data.points, data.blockId, data.reason, data.userId, now, now⟩
    .ok (row, db ++ [row])

/-! ## Global error handler (lib/error-handler.ts, development docs) -/

/-- A thrown JavaScript error as inspected by `withErrorHandler`: its
`name`, its `code` (set on prisma known-request errors) and its `errors`
payload (set on zod errors). -/
structure JsError where
  name : String
  code : Option String
  errors : Option String
  deriving DecidableEq, Repr

/-- An HTTP error response body with its status
(`createErrorResponse(error, status, details)` from lib/api-helpers.ts). -/
structure ErrorResponse where
  error : String
  status : Nat
  details : Option String
  deriving DecidableEq, Repr

/-- createErrorResponse builds the `{error, details?}` JSON with the
given status. -/
def createErrorResponse (error : String) (status : Nat)
    (details : Option String) : ErrorResponse :=
  ⟨error, status, details⟩

/-- The error-to-response mapping inside `withErrorHandler`'s catch
block. -/
def handleApiError (e : JsError) : ErrorResponse :=
  if e.name = "PrismaClientKnownRequestError" then
    if e.code = some "P2002" then createErrorResponse "Resource already exists" 409 none
    else if e.code = some "P2025" then createErrorResponse "Resource not found" 404 none
    else createErrorResponse "Database error" 500 none
  else if e.name = "ZodError" then
    createErrorResponse "Validation error" 400 e.errors
  else
    createErrorResponse "Internal server error" 500 none

/-- Outcome of running a wrapped route handler: either its response, or
the exception it threw. -/
inductive HandlerOutcome (ρ : Type) where
  | ok (r : ρ)
  | thrown (e : JsError)
  deriving DecidableEq, Repr

/-- Result of the wrapped route: the handler's own response or an error
response produced by the catch block. -/
inductive RouteResult (ρ : Type) where
  | success (r : ρ)
  | failure (e : ErrorResponse)
  deriving DecidableEq, Repr

/-- withErrorHandler (lib/error-handler.ts): passes a successful response
through and maps every thrown error to an HTTP error response. -/
def withErrorHandler {ρ : Type} (h : HandlerOutcome ρ) : RouteResult ρ :=
  match h with
  | .ok r => .success r
  | .thrown e => .failure (handleApiError e)

/-! ## User module (user.md) -/

/-- Creation input for User (`CreateUserData`): email required, name and
mode optional. -/
structure CreateUserData where
  email : String
  name : Option String
  mode : Option UserMode
  deriving DecidableEq, Repr

/-- getUserById: single-row lookup by primary key. -/
def getUserById (db : List User) (id : String) : Option User :=
  db.find? (fun u => u.id == id)

/-- getUserByEmail: single-row lookup by the unique email. -/
def getUserByEmail (db : List User) (email : String) : Option User :=
  db.find? (fun u => u.email == email)

/-- Modelled from the spec: the implementation of `createUser`
(`lib/user.ts`) is not part of this repository; modelled from the
documented parameters and error scenarios (invalid email format and
duplicate email reject with `UserError`), with `mode` defaulting to
STUDENT (schema default).  The email-format test is abstracted as the
Boolean parameter `isEmail`; `newId` is the generated cuid and `now` the
creation time. -/
def createUser (isEmail : String → Bool) (db : List User) (data : CreateUserData)
    (newId : String) (now : Nat) : Except UserError (User × List User) :=
  if !isEmail data.email then .error ⟨"Invalid email format"⟩
  else
    match getUserByEmail db data.email with
    | some _ => .error ⟨"User with this email already exists"⟩
    | none =>
      let u : User := ⟨newId, data.email, data.name, data.mode.getD UserMode.STUDENT, now, now⟩
      .ok (u, db ++ [u])

/-- Partial update payload for User (`Partial<User>` restricted to the
writable columns): an outer `none` means the field is absent from the
payload (prisma leaves it unchanged); `name` can also be set to `null`
(inner `none`). -/
structure UpdateUserData where
  email : Option String
  name : Option (Option String)
  mode : Option UserMode
  deriving DecidableEq, Repr

/-- Merge a partial payload into a stored row, as
`prisma.user.update({ where: { id }, data })` does: supplied fields are
overwritten, absent fields keep their stored value, and `updatedAt` is
rewritten to the update time by the schema's `@updatedAt` attribute. -/
def applyUserUpdate (u : User) (d : UpdateUserData) (now : Nat) : User :=
  { id := u.id
    email := d.email.getD u.email
    name := d.name.getD u.name
    mode := d.mode.getD u.mode
    createdAt := u.createdAt
    updatedAt := now }

/-- Modelled from the spec: the implementation of `updateUser`
(`lib/user.ts`) is not part of this repository; per the spec it verifies
the target exists (else `NotFoundError`), merges the supplied fields and
persists.  `now` is the time of the update. -/
def updateUser (db : List User) (id : String) (d : UpdateUserData) (now : Nat) :
    Except UserError (User × List User) :=
  match getUserById db id with
  | none => .error ⟨"User not found"⟩
  | some u =>
    let u2 := applyUserUpdate u d now
    .ok (u2, db.map (fun v => if v.id == id then u2 else v))

/-- Generic single-row lookup by primary key, the `getById` pattern every
entity module repeats (`idOf` projects the primary key). -/
def getByIdG {α : Type} (idOf : α → String) (db : List α) (id : String) : Option α :=
  db.find? (fun r => idOf r == id)

/-- Generic insertion of a created row, the `create` pattern every entity
module repeats: the validated row is inserted into the table. -/
def createG {α : Type} (db : List α) (r : α) : List α := db ++ [r]

/-! ## API routes (development docs, app/api/users/route.ts) -/

/-- The relevant fields of a JSON request body for POST /api/users; a
`none` field is absent from the body. -/
structure CreateUserBody where
  email : Option String
  name : Option String
  mode : Option String
  deriving DecidableEq, Repr

/-- Parse of the `z.enum(['STUDENT', 'TEACHER', 'ADMIN'])` member. -/
def parseUserMode (s : String) : Option UserMode :=
  if s = "STUDENT" then some .STUDENT
  else if s = "TEACHER" then some .TEACHER
  else if s = "ADMIN" then some .ADMIN
  else none

/-- A body accepted by `createUserSchema`. -/
structure ParsedCreateUser where
  email : String
  name : String
  mode : UserMode
  deriving DecidableEq, Repr

/-- createUserSchema of app/api/users/route.ts:
`email: z.string().email()`, `name: z.string().min(1).max(100)` (required,
1-100 characters), `mode: z.enum([...]).default('STUDENT')` (optional,
defaulting to STUDENT).  `none` models a `ZodError`; the email-format
regex is abstracted as the Boolean parameter `isEmail`. -/
def createUserSchemaParse (isEmail : String → Bool) (b : CreateUserBody) :
    Option ParsedCreateUser :=
  match b.email, b.name with
  | some e, some n =>
    if isEmail e && decide (1 ≤ n.length) && decide (n.length ≤ 100) then
      match b.mode with
      | none => some ⟨e, n, .STUDENT⟩
      | some m => (parseUserMode m).map (fun md => ⟨e, n, md⟩)
    else none
  | _, _ => none

/-- The columns the users routes select
(`select: { id, email, name, mode, createdAt }`). -/
structure UserView where
  id : String
  email : String
  name : Option String
  mode : UserMode
  createdAt : Nat
  deriving DecidableEq, Repr

/-- Project a row to the selected columns. -/
def toUserView (u : User) : UserView := ⟨u.id, u.email, u.name, u.mode, u.createdAt⟩

/-- Responses of POST /api/users. -/
inductive PostUsersResult where
  | unauthorized
  | validationError
  | conflict
  | created (u : UserView)
  deriving DecidableEq, Repr

/-- HTTP status of each POST /api/users response (401 / 400 / 409 / 201). -/
def postUsersStatus : PostUsersResult → Nat
  | .unauthorized => 401
  | .validationError => 400
  | .conflict => 409
  | .created _ => 201

/-- POST /api/users (app/api/users/route.ts): checks the session, parses
the body against createUserSchema (a ZodError is caught and returned as
401-handler's 400), rejects an email that already exists with 409, else
creates the user and returns it with 201.  Returns the response together
with the resulting users table. -/
def POST_api_users (isEmail : String → Bool) (session : Option Unit)
    (db : List User) (body : CreateUserBody) (newId : String) (now : Nat) :
    PostUsersResult × List User :=
  match session with
  | none => (.unauthorized, db)
  | some _ =>
    match createUserSchemaParse isEmail body with
    | none => (.validationError, db)
    | some d =>
      match getUserByEmail db d.email with
      | some _ => (.conflict, db)
      | none =>
        let u : User := ⟨newId, d.email, some d.name, d.mode, now, now⟩
        (.created (toUserView u), db ++ [u])

/-- JavaScript `get(...) || dflt`: `null` and the empty string are falsy
and fall back to the default. -/
def jsOr (s : Option String) (dflt : String) : String :=
  match s with
  | none => dflt
  | some "" => dflt
  | some v => v

/-- Value of the longest digit prefix, `none` when there is no digit. -/
def jsParseIntDigits (cs : List Char) : Option Nat :=
  let ds := cs.takeWhile Char.isDigit
  if ds.isEmpty then none
  else some (ds.foldl (fun acc c => 10 * acc + (c.toNat - 48)) 0)

/-- JavaScript `parseInt` at radix 10: skips leading whitespace, accepts
an optional sign, then reads the longest digit prefix; `NaN` (modelled
`none`) when no digit follows. -/
def jsParseInt (s : String) : Option Int :=
  match s.data.dropWhile Char.isWhitespace with
  | [] => none
  | c :: rest =>
    if c = '-' then (jsParseIntDigits rest).map (fun n => -(n : Int))
    else if c = '+' then (jsParseIntDigits rest).map (fun n => (n : Int))
    else (jsParseIntDigits (c :: rest)).map (fun n => (n : Int))

/-- The `where` built by GET /api/users: with a non-empty search term a
user matches when name or email contains it case-insensitively (a null
name never matches `contains`); with the empty (falsy) term the filter is
`{}` and every user matches. -/
def matchesUserSearch (search : String) (u : User) : Bool :=
  if search = "" then true
  else
    (match u.name with
     | some n => containsCI n search
     | none => false) || containsCI u.email search

/-- Stable insertion keeping `createdAt` descending. -/
def insertByCreatedAtDesc (u : User) : List User → List User
  | [] => [u]
  | v :: vs => if v.createdAt ≤ u.createdAt then u :: v :: vs else v :: insertByCreatedAtDesc u vs

/-- The `orderBy: { createdAt: 'desc' }` of the query, modelled as an
insertion sort (the database's order among equal timestamps is
unspecified). -/
def sortByCreatedAtDesc : List User → List User
  | [] => []
  | u :: us => insertByCreatedAtDesc u (sortByCreatedAtDesc us)

/-- Prisma `take`: a non-negative take returns the first `take` rows, a
negative take returns the last `|take|` rows. -/
def jsTake (limit : Int) (l : List User) : List User :=
  if 0 ≤ limit then l.take limit.toNat
  else (l.reverse.take (-limit).toNat).reverse

/-- The `pagination` object of GET /api/users. `pages` is
`Math.ceil(total / limit)`; for `limit = 0` that value is the non-finite
JS Infinity/NaN, modelled `none`. -/
structure Pagination where
  page : Int
  limit : Int
  total : Nat
  pages : Option Int
  deriving DecidableEq, Repr

/-- Math.ceil(a / b) over the integers, `none` when `b = 0` (the JS value
is then non-finite). -/
def jsMathCeilDiv (a : Nat) (b : Int) : Option Int :=
  if b = 0 then none else some ⌈(a : ℚ) / (b : ℚ)⌉

/-- Responses of GET /api/users. `serverError` is the catch-all 500 (it
receives the prisma rejections of a NaN page/limit and of a negative
skip). -/
inductive GetUsersResult where
  | unauthorized
  | serverError
  | okPage (users : List UserView) (pagination : Pagination)
  deriving DecidableEq, Repr

/-- GET /api/users (app/api/users/route.ts): checks the session, parses
`page` and `limit` with `parseInt(get(..) || default)`, filters by the
search term, orders by `createdAt` descending, slices with
`skip: (page-1)*limit, take: limit`, counts the matching rows, and
returns the page with `{page, limit, total, pages: Math.ceil(total/limit)}`. -/
def GET_api_users (session : Option Unit) (db : List User)
    (pageParam limitParam searchParam : Option String) : GetUsersResult :=
  match session with
  | none => .unauthorized
  | some _ =>
    match jsParseInt (jsOr pageParam "1"), jsParseInt (jsOr limitParam "10") with
    | some page, some limit =>
      let search := jsOr searchParam ""
      let filtered := db.filter (matchesUserSearch search)
      let skip := (page - 1) * limit
      if skip < 0 then .serverError
      else
        let rows := jsTake limit ((sortByCreatedAtDesc filtered).drop skip.toNat)
        let total := filtered.length
        .okPage (rows.map toUserView) ⟨page, limit, total, jsMathCeilDiv total limit⟩
    | _, _ => .serverError

/-! ## Folder module (folder.md) -/

/-- Error kinds of the Folder module (class `FolderError`, one kind per
documented message; `ownParent` is thrown with message
`Folder cannot be its own parent` and `circular` with
`Circular reference detected`). -/
inductive FolderErr where
  | notFound
  | nameEmpty
  | nameTooLong
  | parentMissing
  | ownParent
  | circular
  deriving DecidableEq, Repr

/-- getFolderById: single-row lookup by primary key. -/
def getFolderById (db : List Folder) (id : String) : Option Folder :=
  db.find? (fun f => f.id == id)

/-- folderExists: existence probe. -/
def folderExists (db : List Folder) (id : String) : Bool :=
  (getFolderById db id).isSome

/-- The `while (current)` loop of `validateParentChild` (folder.md lines
483-498): walk the ancestor chain from `current`; throw when the resolved
folder's `parentId` equals `childId`; exit when `current` is falsy or does
not resolve.  The loop is given explicit fuel; the fuel-exhaustion case is
unreachable from acyclic states when run with fuel `db.length + 1`
(`vpcLoop_detects` together with `chainTo_length_le`), which is how
`validateParentChild` invokes it. -/
def vpcLoop (db : List Folder) (childId : String) : Nat → Option String → Except FolderErr Unit
  | _, none => .ok ()
  | 0, some _ => .ok ()
  | fuel + 1, some current =>
    match getFolderById db current with
    | none => .ok ()
    | some parent =>
      if parent.parentId = some childId then .error .circular
      else vpcLoop db childId fuel parent.parentId

/-- validateParentChild (folder.md lines 483-498): rejects
`parentId === childId` outright, then walks the ancestor chain of
`parentId` looking for `childId`. -/
def validateParentChild (db : List Folder) (parentId childId : String) :
    Except FolderErr Unit :=
  if parentId = childId then .error .ownParent
  else vpcLoop db childId (db.length + 1) (some parentId)

/-- JavaScript `String.prototype.trim`: strip whitespace from both
ends. -/
def jsTrim (s : String) : String :=
  ⟨((s.data.dropWhile Char.isWhitespace).reverse.dropWhile Char.isWhitespace).reverse⟩

/-- Creation input for Folder (`CreateFolderData`). -/
structure CreateFolderData where
  name : String
  authorId : String
  parentId : Option String
  description : Option String
  deriving DecidableEq, Repr

/-- Modelled from the spec: the implementation of `createFolder`
(`lib/folder.ts`) is not part of this repository; modelled from the
documented parameters, the name-validation best practices (non-empty
trimmed name of at most 100 characters) and the invalid-parent error
scenario (`if (parentId && !await folderExists(parentId)) throw`; by JS
truthiness an empty-string parentId skips the check).  `newId` is the
generated cuid and `now` the creation time. -/
def createFolder (db : List Folder) (data : CreateFolderData) (newId : String)
    (now : Nat) : Except FolderErr (Folder × List Folder) :=
  if jsTrim data.name = "" then .error .nameEmpty
  else if 100 < data.name.length then .error .nameTooLong
  else if (jsTruthy data.parentId).any (fun p => !folderExists db p) then
    .error .parentMissing
  else
    let f : Folder := ⟨newId, data.name, data.description, data.authorId,
                       data.parentId, now, now⟩
    .ok (f, db ++ [f])

/-- Partial update payload for Folder (`Partial<Folder>` restricted to the
writable columns): an outer `none` means the field is absent; the inner
option of `description`/`parentId` is the stored nullable value. -/
structure UpdateFolderData where
  name : Option String
  description : Option (Option String)
  parentId : Option (Option String)
  deriving DecidableEq, Repr

/-- Merge a partial payload into a stored folder row; `updatedAt` is
rewritten by the schema's `@updatedAt` attribute. -/
def applyFolderUpdate (f : Folder) (d : UpdateFolderData) (now : Nat) : Folder :=
  { id := f.id
    name := d.name.getD f.name
    description := d.description.getD f.description
    authorId := f.authorId
    parentId := d.parentId.getD f.parentId
    createdAt := f.createdAt
    updatedAt := now }

/-- Modelled from the spec: the implementation of `updateFolder`
(`lib/folder.ts`) is not part of this repository; per the spec it must
"detect and reject circular parent assignment by walking the ancestor
chain before committing an update that changes `parentId`", the walk being
the embedded `validateParentChild`.  The walk is guarded by the truthiness
of the supplied `parentId` (folder.md, `validateFolderStructure`), so an
absent, null or empty value skips it. -/
def updateFolder (db : List Folder) (id : String) (d : UpdateFolderData)
    (now : Nat) : Except FolderErr (Folder × List Folder) :=
  match getFolderById db id with
  | none => .error .notFound
  | some f =>
    let check : Except FolderErr Unit :=
      match jsTruthy (d.parentId.getD none) with
      | some p => validateParentChild db p id
      | none => .ok ()
    match check with
    | .error e => .error e
    | .ok _ =>
      let f2 := applyFolderUpdate f d now
      .ok (f2, db.map (fun g => if g.id == id then f2 else g))

/-- deleteFolder: verifies existence, removes the row, returns its prior
state. -/
def deleteFolder (db : List Folder) (id : String) :
    Except FolderErr (Folder × List Folder) :=
  match getFolderById db id with
  | none => .error .notFound
  | some f => .ok (f, db.filter (fun g => !(g.id == id)))

/-- Run an update request against the table: a failed operation aborts and
leaves the table unchanged. -/
def runUpdateFolder (db : List Folder) (id : String) (d : UpdateFolderData)
    (now : Nat) : List Folder :=
  match updateFolder db id d now with
  | .ok r => r.2
  | .error _ => db

/-- The parent edge of the hierarchy: the stored `parentId` of the folder
whose id is `x`. -/
def parentOf (db : List Folder) (x : String) : Option String :=
  (getFolderById db x).bind (fun f => f.parentId)

/-- `IsAncestor db a x`: `a` is a strict ancestor of `x`, i.e. the parent
chain of `x` reaches `a` in one or more steps. -/
inductive IsAncestor (db : List Folder) : String → String → Prop
  | parent {x p : String} : parentOf db x = some p → IsAncestor db p x
  | trans {x p a : String} : parentOf db x = some p → IsAncestor db a p →
      IsAncestor db a x

/-- `AncestorOrSelf db c x`: the parent chain of `x` reaches `c` in zero
or more steps. -/
def AncestorOrSelf (db : List Folder) (c x : String) : Prop :=
  x = c ∨ IsAncestor db c x

/-- Acyclicity of the folder hierarchy, witnessed by a rank that strictly
decreases along parent edges. -/
def Acyclic (db : List Folder) : Prop :=
  ∃ rank : String → Nat, ∀ x p, parentOf db x = some p → rank p < rank x

/-- The invariant maintained by the folder module: the hierarchy is
acyclic and no stored folder carries the empty id (every id is a generated
cuid). -/
def InvF (db : List Folder) : Prop :=
  Acyclic db ∧ ∀ f ∈ db, f.id ≠ ""

/-- The explicit ancestor chain of `x` that ends one step before `c`:
`ChainTo db c x l` says `l = [x₀, …, xₖ]` with `x₀ = x`, each `xᵢ₊₁` the
parent of `xᵢ`, and `c` the parent of `xₖ`. -/
inductive ChainTo (db : List Folder) (c : String) : String → List String → Prop
  | last {x : String} : parentOf db x = some c → ChainTo db c x [x]
  | cons {x p : String} {l : List String} : parentOf db x = some p →
      ChainTo db c p l → ChainTo db c x (x :: l)

/-- Freshness of a generated cuid: non-empty and distinct from every id
ever stored, in particular from every stored id and every stored parent
reference. -/
def FreshFolderId (db : List Folder) (newId : String) : Prop :=
  newId ≠ "" ∧ ∀ f ∈ db, f.id ≠ newId ∧ f.parentId ≠ some newId

/-- Folder tables reachable from the empty table through the module's
mutations.  In the create step the generated id is fresh and cannot occur
in the caller-supplied data (the caller cannot know it in advance). -/
inductive ReachableF : List Folder → Prop
  | empty : ReachableF []
  | create {db : List Folder} {data : CreateFolderData} {newId : String}
      {now : Nat} {f : Folder} {db2 : List Folder} :
      ReachableF db → FreshFolderId db newId → data.parentId ≠ some newId →
      createFolder db data newId now = .ok (f, db2) → ReachableF db2
  | update {db : List Folder} {id : String} {d : UpdateFolderData} {now : Nat}
      {f : Folder} {db2 : List Folder} :
      ReachableF db → updateFolder db id d now = .ok (f, db2) → ReachableF db2
  | delete {db : List Folder} {id : String} {f : Folder} {db2 : List Folder} :
      ReachableF db → deleteFolder db id = .ok (f, db2) → ReachableF db2

/-! ## Concrete data used by the closed witness and counterexample
theorems -/

/-- A root folder. -/
def folderRootW : Folder := ⟨"r", "Root", none, "u1", none, 0, 0⟩

/-- A child of the root folder. -/
def folderChildW : Folder := ⟨"c", "Child", none, "u1", some "r", 1, 1⟩

/-- A two-folder table: a root and its child. -/
def folderDbW : List Folder := [folderRootW, folderChildW]

/-- An update payload moving a folder under folder `c`. -/
def folderUpdW : UpdateFolderData := ⟨none, none, some (some "c")⟩

/-- A stored user whose `updatedAt` is 0. -/
def c3userW : User := ⟨"u1", "a@x.com", none, .STUDENT, 0, 0⟩

/-- A payload supplying only `name`. -/
def c3updW : UpdateUserData := ⟨none, some (some "Jane"), none⟩

/-- A POST body carrying only an email, valid under the claimed
`{email, name?, mode?}` shape. -/
def c5bodyW : CreateUserBody := ⟨some "a@x.com", none, none⟩

/-- A POST body accepted by the actual `createUserSchema`. -/
def c5bodyOkW : CreateUserBody := ⟨some "b@x.com", some "John", none⟩

/-- A fill-in-the-blank row of block `b1`. -/
def fibW : FillInTheBlank := ⟨"f1", "The _ shines", "sun", some "b1", none, none, 0, 0⟩

/-! ## Theorems -/

/-- Coalescing the aggregate of a row list to 0 yields the plain sum. -/
theorem prismaSum_getD (rows : List PointsUpdate) :
    ((if rows.isEmpty then (none : Option Int)
      else some ((rows.map (fun p => p.points)).sum)).getD 0)
      = (rows.map (fun p => p.points)).sum := by
  cases rows <;> simp

/-- C2: `getTotalPointsForBlock(blockId)` returns exactly the sum of the
`points` field over all PointsUpdate rows whose `blockId` equals the given
one, and returns 0 when no such rows exist. -/
theorem getTotalPointsForBlock_correct (db : List PointsUpdate) (blockId : String) :
    getTotalPointsForBlock db blockId
        = ((db.filter (fun p => p.blockId == some blockId)).map (fun p => p.points)).sum ∧
      (db.filter (fun p => p.blockId == some blockId) = [] →
        getTotalPointsForBlock db blockId = 0) := by
  have h1 : getTotalPointsForBlock db blockId
      = ((db.filter (fun p => p.blockId == some blockId)).map (fun p => p.points)).sum := by
    show ((if (db.filter (fun p => p.blockId == some blockId)).isEmpty then (none : Option Int)
        else some (((db.filter (fun p => p.blockId == some blockId)).map (fun p => p.points)).sum)).getD 0)
      = ((db.filter (fun p => p.blockId == some blockId)).map (fun p => p.points)).sum
    exact prismaSum_getD _
  refine ⟨h1, fun h => ?_⟩
  rw [h1, h]
  simp

/-- Witness for C2 at a concrete table with no matching rows. -/
theorem getTotalPointsForBlock_correct_witness : getTotalPointsForBlock [] "b1" = 0 :=
  (getTotalPointsForBlock_correct [] "b1").2 rfl

/-- The Boolean case-insensitive substring test holds exactly when the
lower-cased needle occurs inside the lower-cased haystack. -/
theorem containsCI_iff (hay needle : String) :
    containsCI hay needle = true ↔
      ∃ l r, l ++ lowerChars needle ++ r = lowerChars hay := by
  unfold containsCI
  rw [List.any_eq_true]
  constructor
  · rintro ⟨t, ht, hp⟩
    rw [ List.mem_tails] at ht
    rw [ List.isPrefixOf_iff_prefix] at hp
    obtain ⟨l, hl⟩ := ht
    obtain ⟨r, hr⟩ := hp
    refine ⟨l, r, ?_⟩
    rw [← hl, ← hr, List.append_assoc]
  · rintro ⟨l, r, h⟩
    rw [List.append_assoc] at h
    refine ⟨lowerChars needle ++ r, ?_, ?_⟩
    · rw [ List.mem_tails]
      exact ⟨l, h⟩
    · rw [ List.isPrefixOf_iff_prefix]
      exact ⟨r, rfl⟩

/-- C6: `searchTopicsByName(term)` returns exactly the topics of the table
whose name contains the term as a case-insensitive substring, and no topic
whose name does not. -/
theorem searchTopicsByName_correct (db : List Topic) (term : String) (t : Topic) :
    t ∈ searchTopicsByName db term ↔
      t ∈ db ∧ ∃ l r, l ++ lowerChars term ++ r = lowerChars t.name := by
  unfold searchTopicsByName
  rw [List.mem_filter, containsCI_iff]

/-- C7: any non-null result of `getRandomFillInTheBlankByBlock(blockId)`
is a row of the table whose `blockId` equals the given one, under every
outcome of the random selection. -/
theorem getRandomFillInTheBlankByBlock_member (db : List FillInTheBlank)
    (blockId : String) (k : Nat) (f : FillInTheBlank) :
    getRandomFillInTheBlankByBlock db blockId k = some f →
    f.blockId = some blockId ∧ f ∈ db := by
  intro h
  unfold getRandomFillInTheBlankByBlock at h
  have hmem : f ∈ db.filter (fun g => g.blockId == some blockId) :=
    List.getElem?_mem h
  constructor
  · have := List.of_mem_filter hmem
    simpa using this
  · exact List.mem_of_mem_filter hmem

/-- Witness for C7 at a one-row table. -/
theorem getRandomFillInTheBlankByBlock_member_witness :
    fibW.blockId = some "b1" ∧ fibW ∈ [fibW] :=
  getRandomFillInTheBlankByBlock_member [fibW] "b1" 0 fibW rfl

/-- C8: `createPointsUpdate` rejects every creation input with a negative
points value with a `PointsUpdateError`, on its first validation, and no
row is created. -/
theorem createPointsUpdate_rejects_negative (blocks : List Block) (users : List User)
    (db : List PointsUpdate) (data : CreatePointsUpdateData) (newId : String) (now : Nat) :
    data.points < 0 →
    createPointsUpdate blocks users db data newId now
        = .error ⟨"Points cannot be negative"⟩ ∧
      ∀ row db2, createPointsUpdate blocks users db data newId now ≠ .ok (row, db2) := by
  intro h
  have he : createPointsUpdate blocks users db data newId now
      = .error ⟨"Points cannot be negative"⟩ := by
    unfold createPointsUpdate
    rw [if_pos h]
  refine ⟨he, fun row db2 hc => ?_⟩
  rw [he] at hc
  exact Except.noConfusion hc

/-- Witness for C8 at the documented example `{points: -10, blockId}`. -/
theorem createPointsUpdate_rejects_negative_witness :
    createPointsUpdate [] [] [] ⟨-10, some "block-123", none, none⟩ "p1" 0
      = .error ⟨"Points cannot be negative"⟩ :=
  (createPointsUpdate_rejects_negative [] [] [] ⟨-10, some "block-123", none, none⟩
    "p1" 0 (by decide)).1

/-- C10: `withErrorHandler` passes successful responses through and maps
every thrown error to an HTTP error response, never re-raising: prisma
known-request errors map P2002 ↦ 409, P2025 ↦ 404 and anything else ↦ 500;
zod errors map to 400 with their issue details; every other exception maps
to a generic 500. -/
theorem withErrorHandler_total_mapping (ρ : Type) (e : JsError) (r : ρ) :
    withErrorHandler (HandlerOutcome.ok r) = RouteResult.success r ∧
    withErrorHandler (HandlerOutcome.thrown e)
        = RouteResult.failure (ρ := ρ) (handleApiError e) ∧
    (e.name = "PrismaClientKnownRequestError" → e.code = some "P2002" →
      handleApiError e = createErrorResponse "Resource already exists" 409 none) ∧
    (e.name = "PrismaClientKnownRequestError" → e.code = some "P2025" →
      handleApiError e = createErrorResponse "Resource not found" 404 none) ∧
    (e.name = "PrismaClientKnownRequestError" → e.code ≠ some "P2002" →
      e.code ≠ some "P2025" →
      handleApiError e = createErrorResponse "Database error" 500 none) ∧
    (e.name = "ZodError" →
      handleApiError e = createErrorResponse "Validation error" 400 e.errors) ∧
    (e.name ≠ "PrismaClientKnownRequestError" → e.name ≠ "ZodError" →
      handleApiError e = createErrorResponse "Internal server error" 500 none) := by
  refine ⟨rfl, rfl, ?_, ?_, ?_, ?_, ?_⟩ <;> intros <;> simp [handleApiError, *]

/-- Witness for C10 at a zod validation error. -/
theorem withErrorHandler_total_mapping_witness :
    handleApiError ⟨"ZodError", none, some "issues"⟩
      = createErrorResponse "Validation error" 400 (some "issues") :=
  (withErrorHandler_total_mapping Unit ⟨"ZodError", none, some "issues"⟩ ()).2.2.2.2.2.1 rfl

/-- C3 counterexample: updating only `name` also changes `updatedAt`, a
stored field not mentioned in the payload (the schema's `@updatedAt`
attribute rewrites it on every update), so the claim as stated fails at
this input. -/
theorem updateUser_counterexample :
    updateUser [c3userW] "u1" c3updW 5
        = .ok (⟨"u1", "a@x.com", some "Jane", .STUDENT, 0, 5⟩,
               [⟨"u1", "a@x.com", some "Jane", .STUDENT, 0, 5⟩]) ∧
      c3updW.email = none ∧ c3updW.mode = none ∧
      c3userW.updatedAt = 0 ∧ (5 : Nat) ≠ 0 := by
  exact ⟨rfl, rfl, rfl, rfl, by decide⟩

/-- C3 (amended): `update(id, partial)` changes exactly the supplied
fields together with the automatic `updatedAt` timestamp (schema
`@updatedAt`), which is set to the update time; `id`, `createdAt` and
every field absent from the payload keep their stored values.  Stated for
the User module, whose pattern every entity module repeats. -/
theorem updateUser_frame (db : List User) (id : String) (d : UpdateUserData)
    (now : Nat) (u u2 : User) (db2 : List User) :
    getUserById db id = some u →
    updateUser db id d now = .ok (u2, db2) →
    u2.id = u.id ∧ u2.createdAt = u.createdAt ∧ u2.updatedAt = now ∧
    (d.email = none → u2.email = u.email) ∧
    (d.name = none → u2.name = u.name) ∧
    (d.mode = none → u2.mode = u.mode) ∧
    (∀ e, d.email = some e → u2.email = e) ∧
    (∀ n, d.name = some n → u2.name = n) ∧
    (∀ m, d.mode = some m → u2.mode = m) := by
  intro hf hu
  unfold updateUser at hu
  rw [hf] at hu
  rw [Except.ok.injEq, Prod.mk.injEq] at hu
  obtain ⟨h1, h2⟩ := hu
  subst h1
  refine ⟨rfl, rfl, rfl, ?_, ?_, ?_, ?_, ?_, ?_⟩ <;>
    intros <;> simp [applyUserUpdate, *]

/-- Witness for C3's amended claim at the counterexample's input. -/
theorem updateUser_frame_witness :
    (⟨"u1", "a@x.com", some "Jane", UserMode.STUDENT, 0, 5⟩ : User).email
      = c3userW.email :=
  (updateUser_frame [c3userW] "u1" c3updW 5 c3userW
      ⟨"u1", "a@x.com", some "Jane", .STUDENT, 0, 5⟩
      [⟨"u1", "a@x.com", some "Jane", .STUDENT, 0, 5⟩] rfl rfl).2.2.2.1 rfl

/-- C4: `create` followed by `getById` on the id of the returned record
yields the created record: generically for the insert/lookup pattern every
entity module repeats, and for the User module's `createUser` with its
validations. -/
theorem create_getById_roundtrip :
    (∀ (α : Type) (idOf : α → String) (db : List α) (r : α),
      (∀ x ∈ db, idOf x ≠ idOf r) →
      getByIdG idOf (createG db r) (idOf r) = some r) ∧
    (∀ (isEmail : String → Bool) (db : List User) (data : CreateUserData)
        (newId : String) (now : Nat) (u : User) (db2 : List User),
      (∀ x ∈ db, x.id ≠ newId) →
      createUser isEmail db data newId now = .ok (u, db2) →
      getUserById db2 u.id = some u) := by
  constructor
  · intro α idOf db r hfresh
    unfold getByIdG createG
    rw [List.find?_append]
    have h1 : db.find? (fun x => idOf x == idOf r) = none := by
      rw [List.find?_eq_none]
      intro x hx
      simpa using hfresh x hx
    rw [h1]
    simp
  · intro isEmail db data newId now u db2 hfresh hc
    unfold createUser at hc
    by_cases he : (!isEmail data.email) = true
    · rw [if_pos he] at hc
      exact absurd hc (by simp)
    · rw [if_neg he] at hc
      cases hbe : getUserByEmail db data.email with
      | some v =>
        rw [hbe] at hc
        exact absurd hc (by simp)
      | none =>
        rw [hbe] at hc
        rw [Except.ok.injEq, Prod.mk.injEq] at hc
        obtain ⟨h1, h2⟩ := hc
        subst h2
        rw [← h1]
        unfold getUserById
        rw [List.find?_append]
        have hnone : db.find? (fun x => x.id == newId) = none := by
          rw [List.find?_eq_none]
          intro x hx
          simpa using hfresh x hx
        rw [hnone]
        simp

/-- Witness for C4: a concrete create followed by getById returns the
created row. -/
theorem create_getById_roundtrip_witness :
    getUserById [⟨"u1", "a@x.com", none, .STUDENT, 0, 0⟩] "u1"
      = some ⟨"u1", "a@x.com", none, .STUDENT, 0, 0⟩ :=
  (create_getById_roundtrip).2 (fun _ => true) [] ⟨"a@x.com", none, none⟩ "u1" 0
    ⟨"u1", "a@x.com", none, .STUDENT, 0, 0⟩ [⟨"u1", "a@x.com", none, .STUDENT, 0, 0⟩]
    (fun x hx => absurd hx (List.not_mem_nil x)) rfl

/-- C5 counterexample: an authenticated POST whose body carries only an
email — a valid body under the claimed `{email, name?, mode?}` shape, with
no user of that email in the table — is answered 400, not 201, because
`createUserSchema` requires `name`.  The claim as stated fails at this
input. -/
theorem POST_api_users_counterexample :
    (POST_api_users (fun _ => true) (some ()) [] c5bodyW "u1" 0).1
        = PostUsersResult.validationError ∧
      postUsersStatus (POST_api_users (fun _ => true) (some ()) [] c5bodyW "u1" 0).1 = 400 ∧
      getUserByEmail [] "a@x.com" = none ∧ (400 : Nat) ≠ 201 := by
  exact ⟨rfl, rfl, rfl, by decide⟩

/-- C5 (amended): POST /api/users accepts a body of shape
`{email, name, mode?}` — `name` required (1 to 100 characters), `mode`
optional defaulting to STUDENT: for every authenticated request, a body
accepted by the schema whose email has no existing user is answered 201
with the created user; an existing email is answered 409; a body the
schema rejects is answered 400. -/
theorem POST_api_users_contract (isEmail : String → Bool) (db : List User)
    (body : CreateUserBody) (newId : String) (now : Nat) :
    (createUserSchemaParse isEmail body = none →
      POST_api_users isEmail (some ()) db body newId now = (.validationError, db)) ∧
    (∀ d, createUserSchemaParse isEmail body = some d →
      ∀ v, getUserByEmail db d.email = some v →
      POST_api_users isEmail (some ()) db body newId now = (.conflict, db)) ∧
    (∀ d, createUserSchemaParse isEmail body = some d →
      getUserByEmail db d.email = none →
      POST_api_users isEmail (some ()) db body newId now
        = (.created (toUserView ⟨newId, d.email, some d.name, d.mode, now, now⟩),
           db ++ [⟨newId, d.email, some d.name, d.mode, now, now⟩])) ∧
    postUsersStatus .validationError = 400 ∧ postUsersStatus .conflict = 409 ∧
    (∀ v, postUsersStatus (.created v) = 201) := by
  refine ⟨?_, ?_, ?_, rfl, rfl, fun v => rfl⟩
  · intro h
    simp [POST_api_users, h]
  · intro d hd v hv
    simp [POST_api_users, hd, hv]
  · intro d hd hv
    simp [POST_api_users, hd, hv]

/-- Witness for C5's amended contract: a schema-valid body creates the
user and answers with it. -/
theorem POST_api_users_contract_witness :
    POST_api_users (fun _ => true) (some ()) [] c5bodyOkW "u1" 0
      = (.created (toUserView ⟨"u1", "b@x.com", some "John", .STUDENT, 0, 0⟩),
         [⟨"u1", "b@x.com", some "John", .STUDENT, 0, 0⟩]) :=
  (POST_api_users_contract (fun _ => true) [] c5bodyOkW "u1" 0).2.2.1
    ⟨"b@x.com", "John", .STUDENT⟩ rfl rfl

/-- Inversion of a successful GET /api/users response: page and limit come
from the parsed query parameters and the pagination carries the full
matching count and its ceiling-divided page count. -/
theorem GET_okPage_inv (db : List User) (pageParam limitParam searchParam : Option String)
    (users : List UserView) (pg : Pagination) :
    GET_api_users (some ()) db pageParam limitParam searchParam = .okPage users pg →
    ∃ page limit, jsParseInt (jsOr pageParam "1") = some page ∧
      jsParseInt (jsOr limitParam "10") = some limit ∧
      pg = ⟨page, limit, (db.filter (matchesUserSearch (jsOr searchParam ""))).length,
            jsMathCeilDiv (db.filter (matchesUserSearch (jsOr searchParam ""))).length limit⟩ := by
  intro h
  unfold GET_api_users at h
  cases hp : jsParseInt (jsOr pageParam "1") with
  | none =>
    rw [hp] at h
    cases hl : jsParseInt (jsOr limitParam "10") <;> rw [hl] at h <;>
      exact absurd h (by simp)
  | some page =>
    rw [hp] at h
    cases hl : jsParseInt (jsOr limitParam "10") with
    | none =>
      rw [hl] at h
      exact absurd h (by simp)
    | some limit =>
      rw [hl] at h
      have h2 : (if (page - 1) * limit < 0 then GetUsersResult.serverError
          else GetUsersResult.okPage
            ((jsTake limit ((sortByCreatedAtDesc
                (db.filter (matchesUserSearch (jsOr searchParam "")))).drop
                  (((page - 1) * limit).toNat))).map toUserView)
            ⟨page, limit, (db.filter (matchesUserSearch (jsOr searchParam ""))).length,
             jsMathCeilDiv (db.filter (matchesUserSearch (jsOr searchParam ""))).length limit⟩)
          = GetUsersResult.okPage users pg := h
      by_cases hs : (page - 1) * limit < 0
      · rw [if_pos hs] at h2
        exact absurd h2 (by simp)
      · rw [if_neg hs] at h2
        rw [GetUsersResult.okPage.injEq] at h2
        exact ⟨page, limit, rfl, rfl, h2.2.symm⟩

/-- C9: an authenticated GET /api/users with absent `page` and `limit`
parameters uses page 1 and limit 10; and every successful response
reports as `total` the full count of users matching the search filter and
as `pages` the ceiling of `total / limit` (whenever the divisor is
nonzero; at limit 0 the JS value is the non-finite `Infinity`, modelled
`none`). -/
theorem GET_api_users_pagination (db : List User)
    (pageParam limitParam searchParam : Option String) :
    (∀ users pg, GET_api_users (some ()) db none none searchParam = .okPage users pg →
      pg.page = 1 ∧ pg.limit = 10) ∧
    (∀ users pg,
      GET_api_users (some ()) db pageParam limitParam searchParam = .okPage users pg →
      pg.total = (db.filter (matchesUserSearch (jsOr searchParam ""))).length ∧
      (pg.limit ≠ 0 →
        pg.pages = some ⌈(pg.total : ℚ) / (pg.limit : ℚ)⌉)) := by
  constructor
  · intro users pg h
    obtain ⟨page, limit, hp, hl, hpg⟩ := GET_okPage_inv db none none searchParam users pg h
    have hp1 : some (1 : Int) = some page := by rw [← hp]; rfl
    have hl1 : some (10 : Int) = some limit := by rw [← hl]; rfl
    rw [Option.some.injEq] at hp1 hl1
    rw [hpg, ← hp1, ← hl1]
    exact ⟨rfl, rfl⟩
  · intro users pg h
    obtain ⟨page, limit, hp, hl, hpg⟩ :=
      GET_okPage_inv db pageParam limitParam searchParam users pg h
    subst hpg
    refine ⟨rfl, fun hlim => ?_⟩
    show jsMathCeilDiv (db.filter (matchesUserSearch (jsOr searchParam ""))).length limit
      = some ⌈(((db.filter (matchesUserSearch (jsOr searchParam ""))).length : ℚ)) / ((limit : ℚ))⌉
    unfold jsMathCeilDiv
    rw [if_neg hlim]

/-- Witness for C9 at a one-user table with default parameters. -/
theorem GET_api_users_pagination_witness :
    (Pagination.mk 1 10 1 (jsMathCeilDiv 1 10)).pages
      = some ⌈((1 : Nat) : ℚ) / ((10 : Int) : ℚ)⌉ :=
  ((GET_api_users_pagination [c3userW] none none none).2
    [toUserView c3userW] ⟨1, 10, 1, jsMathCeilDiv 1 10⟩ rfl).2 (by decide)

/-- A successful folder lookup returns a row of the table bearing the
looked-up id. -/
theorem getFolderById_eq_some (db : List Folder) (x : String) (f : Folder)
    (h : getFolderById db x = some f) : f ∈ db ∧ f.id = x := by
  unfold getFolderById at h
  refine ⟨List.mem_of_find?_eq_some h, ?_⟩
  have := List.find?_some h
  simpa using this

/-- A parent edge comes from a stored row. -/
theorem parentOf_eq_some (db : List Folder) (x p : String)
    (h : parentOf db x = some p) :
    ∃ f, getFolderById db x = some f ∧ f.parentId = some p := by
  unfold parentOf at h
  cases hg : getFolderById db x with
  | none => rw [hg] at h; exact absurd h (by simp)
  | some f => rw [hg] at h; exact ⟨f, rfl, h⟩

/-- A rank that decreases along parent edges decreases along the
ancestor relation. -/
theorem isAncestor_rank_lt (db : List Folder) (rank : String → Nat)
    (hr : ∀ x p, parentOf db x = some p → rank p < rank x) :
    ∀ {a x : String}, IsAncestor db a x → rank a < rank x := by
  intro a x h
  induction h with
  | parent hp => exact hr _ _ hp
  | trans hp _ ih => exact ih.trans (hr _ _ hp)

/-- In an acyclic table no folder is its own strict ancestor. -/
theorem acyclic_no_self_ancestor (db : List Folder) (h : Acyclic db) (x : String) :
    ¬ IsAncestor db x x := by
  obtain ⟨rank, hr⟩ := h
  intro hx
  exact absurd (isAncestor_rank_lt db rank hr hx) (lt_irrefl _)

/-- Every ancestor relation is realized by an explicit chain. -/
theorem isAncestor_chainTo (db : List Folder) :
    ∀ {c x : String}, IsAncestor db c x → ∃ l, ChainTo db c x l := by
  intro c x h
  induction h with
  | parent hp => exact ⟨_, ChainTo.last hp⟩
  | trans hp _ ih =>
    obtain ⟨l, hl⟩ := ih
    exact ⟨_, ChainTo.cons hp hl⟩

/-- A chain starts at its source. -/
theorem chainTo_head (db : List Folder) (c x : String) (l : List String)
    (h : ChainTo db c x l) : ∃ t, l = x :: t := by
  cases h with
  | last hp => exact ⟨[], rfl⟩
  | cons hp hc => exact ⟨_, rfl⟩

/-- Along a chain a parent-edge-decreasing rank is strictly decreasing,
pairwise. -/
theorem chainTo_pairwise (db : List Folder) (rank : String → Nat)
    (hr : ∀ x p, parentOf db x = some p → rank p < rank x) :
    ∀ {c x : String} {l : List String}, ChainTo db c x l →
      l.Pairwise (fun a b => rank b < rank a) := by
  intro c x l h
  induction h with
  | last hp => simp
  | cons hp hc ih =>
    refine List.Pairwise.cons ?_ ih
    intro y hy
    obtain ⟨t, ht⟩ := chainTo_head db c _ _ hc
    subst ht
    rcases List.mem_cons.mp hy with rfl | hy2
    · exact hr _ _ hp
    · exact ((List.pairwise_cons.mp ih).1 y hy2).trans (hr _ _ hp)

/-- Every chain element is the id of a stored row. -/
theorem chainTo_mem_ids (db : List Folder) :
    ∀ {c x : String} {l : List String}, ChainTo db c x l →
      ∀ y ∈ l, y ∈ db.map (fun f => f.id) := by
  intro c x l h
  induction h with
  | last hp =>
    intro y hy
    rw [List.mem_singleton] at hy
    subst hy
    obtain ⟨f, hf, _⟩ := parentOf_eq_some db _ _ hp
    obtain ⟨hmem, hid⟩ := getFolderById_eq_some db _ _ hf
    exact List.mem_map.mpr ⟨f, hmem, hid⟩
  | cons hp hc ih =>
    intro y hy
    rcases List.mem_cons.mp hy with rfl | hy2
    · obtain ⟨f, hf, _⟩ := parentOf_eq_some db _ _ hp
      obtain ⟨hmem, hid⟩ := getFolderById_eq_some db _ _ hf
      exact List.mem_map.mpr ⟨f, hmem, hid⟩
    · exact ih y hy2

/-- In an acyclic table a chain never exceeds the table's size: its
elements are pairwise distinct ids of stored rows. -/
theorem chainTo_length_le (db : List Folder) (hacy : Acyclic db)
    {c x : String} {l : List String} (h : ChainTo db c x l) :
    l.length ≤ db.length := by
  classical
  obtain ⟨rank, hr⟩ := hacy
  have hpw := chainTo_pairwise db rank hr h
  have hnd : l.Nodup := by
    refine List.Pairwise.imp ?_ hpw
    intro a b hab he
    subst he
    exact absurd hab (lt_irrefl _)
  have hsub : ∀ y ∈ l, y ∈ db.map (fun f => f.id) := chainTo_mem_ids db h
  calc l.length = l.toFinset.card := (List.toFinset_card_of_nodup hnd).symm
    _ ≤ (db.map (fun f => f.id)).toFinset.card := by
        refine Finset.card_le_card ?_
        intro y hy
        rw [List.mem_toFinset] at hy ⊢
        exact hsub y hy
    _ ≤ (db.map (fun f => f.id)).length := List.toFinset_card_le _
    _ = db.length := by simp

/-- Unfolding equation of the loop at positive fuel and a truthy
cursor. -/
theorem vpcLoop_succ_some (db : List Folder) (c : String) (n : Nat) (current : String) :
    vpcLoop db c (n + 1) (some current)
      = match getFolderById db current with
        | none => .ok ()
        | some parent =>
          if parent.parentId = some c then .error .circular
          else vpcLoop db c n parent.parentId := rfl

/-- The loop, run with at least as much fuel as some chain from the
cursor to the child, reports the circular reference. -/
theorem vpcLoop_detects (db : List Folder) (c : String) :
    ∀ {x : String} {l : List String}, ChainTo db c x l →
      ∀ fuel, l.length ≤ fuel →
        vpcLoop db c fuel (some x) = .error .circular := by
  intro x l h
  induction h with
  | last hp =>
    intro fuel hf
    cases fuel with
    | zero => simp at hf
    | succ n =>
      obtain ⟨f, hf2, hfp⟩ := parentOf_eq_some db _ _ hp
      rw [vpcLoop_succ_some, hf2]
      simp [hfp]
  | cons hp hc ih =>
    intro fuel hf
    cases fuel with
    | zero => simp at hf
    | succ n =>
      obtain ⟨f, hf2, hfp⟩ := parentOf_eq_some db _ _ hp
      rw [vpcLoop_succ_some, hf2]
      by_cases hc2 : f.parentId = some c
      · simp [hc2]
      · simp only [hc2, if_neg, if_false]
        rw [hfp]
        refine ih n ?_
        simp at hf
        omega

/-- validateParentChild rejects a folder as its own parent. -/
theorem validateParentChild_self (db : List Folder) (c : String) :
    validateParentChild db c c = .error .ownParent := by
  unfold validateParentChild
  rw [if_pos rfl]

/-- In an acyclic table validateParentChild detects every circular
assignment: when the new parent is a strict descendant of the child, the
walk reports the circular reference. -/
theorem validateParentChild_detects (db : List Folder) (hacy : Acyclic db)
    (c d : String) (hne : d ≠ c) (hanc : IsAncestor db c d) :
    validateParentChild db d c = .error .circular := by
  unfold validateParentChild
  rw [if_neg hne]
  obtain ⟨l, hl⟩ := isAncestor_chainTo db hanc
  exact vpcLoop_detects db c hl (db.length + 1)
    ((chainTo_length_le db hacy hl).trans (Nat.le_succ _))

/-- In an acyclic table a successful validateParentChild guarantees the
assignment creates no cycle: the new parent is neither the child nor one
of its descendants. -/
theorem validateParentChild_ok (db : List Folder) (hacy : Acyclic db)
    (p c : String) (h : validateParentChild db p c = .ok ()) :
    ¬ AncestorOrSelf db c p := by
  intro hro
  rcases hro with he | hanc
  · subst he
    rw [validateParentChild_self] at h
    exact Except.noConfusion h
  · by_cases hne : p = c
    · subst hne
      rw [validateParentChild_self] at h
      exact Except.noConfusion h
    · rw [validateParentChild_detects db hacy c p hne hanc] at h
      exact Except.noConfusion h

/-- Lookup in a table with an appended row. -/
theorem getFolderById_append (db : List Folder) (f : Folder) (x : String) :
    getFolderById (db ++ [f]) x
      = (getFolderById db x).or (if f.id == x then some f else none) := by
  unfold getFolderById
  rw [List.find?_append]
  congr 1
  by_cases hf : (f.id == x)
  · simp [List.find?, hf]
  · simp only [Bool.not_eq_true] at hf
    simp [List.find?, hf]

/-- Lookup in a table whose rows of a given id are replaced by a row
bearing that id. -/
theorem getFolderById_replace (db : List Folder) (id : String) (f2 : Folder)
    (hid : f2.id = id) (x : String) :
    getFolderById (db.map (fun g => if g.id == id then f2 else g)) x
      = if x = id then (getFolderById db id).map (fun _ => f2)
        else getFolderById db x := by
  induction db with
  | nil => by_cases hx : x = id <;> simp [getFolderById, hx]
  | cons g gs ih =>
    simp only [List.map_cons]
    by_cases hg : g.id = id
    · have hhead : ((if (g.id == id) = true then f2 else g) : Folder) = f2 := by
        simp [hg]
      rw [hhead]
      by_cases hx : x = id
      · subst hx
        unfold getFolderById
        rw [List.find?_cons_of_pos _ (by simp [hid]),
            List.find?_cons_of_pos _ (by simp [hg])]
        simp
      · unfold getFolderById
        rw [List.find?_cons_of_neg _ (by simp [hid]; exact fun he => hx he.symm),
            if_neg hx]
        rw [List.find?_cons_of_neg _ (by simp [hg]; exact fun he => hx he.symm)]
        have := ih
        unfold getFolderById at this
        rw [this, if_neg hx]
    · have hhead : ((if (g.id == id) = true then f2 else g) : Folder) = g := by
        simp [hg]
      rw [hhead]
      by_cases hx : x = id
      · subst hx
        unfold getFolderById
        rw [List.find?_cons_of_neg _ (by simp [hg]), if_pos rfl,
            List.find?_cons_of_neg _ (by simp [hg])]
        have := ih
        unfold getFolderById at this
        rw [this, if_pos rfl]
      · by_cases hgx : g.id = x
        · unfold getFolderById
          rw [List.find?_cons_of_pos _ (by simp [hgx]), if_neg hx,
              List.find?_cons_of_pos _ (by simp [hgx])]
        · unfold getFolderById
          rw [List.find?_cons_of_neg _ (by simp [hgx]), if_neg hx,
              List.find?_cons_of_neg _ (by simp [hgx])]
          have := ih
          unfold getFolderById at this
          rw [this, if_neg hx]

/-- Lookup in a table whose rows of a given id are removed. -/
theorem getFolderById_erase (db : List Folder) (id x : String) :
    getFolderById (db.filter (fun g => !(g.id == id))) x
      = if x = id then none else getFolderById db x := by
  induction db with
  | nil => by_cases hx : x = id <;> simp [getFolderById, hx]
  | cons g gs ih =>
    by_cases hg : g.id = id
    · rw [List.filter_cons_of_neg (by simp [hg])]
      rw [ih]
      by_cases hx : x = id
      · rw [if_pos hx, if_pos hx]
      · rw [if_neg hx, if_neg hx]
        unfold getFolderById
        rw [List.find?_cons_of_neg _ (by simp [hg]; exact fun he => hx he.symm)]
    · rw [List.filter_cons_of_pos (by simp [hg])]
      by_cases hgx : g.id = x
      · have hx : ¬ x = id := fun he => hg (hgx.trans he)
        unfold getFolderById
        rw [List.find?_cons_of_pos _ (by simp [hgx]), if_neg hx,
            List.find?_cons_of_pos _ (by simp [hgx])]
      · unfold getFolderById
        rw [List.find?_cons_of_neg _ (by simp [hgx]),
            List.find?_cons_of_neg _ (by simp [hgx])]
        have := ih
        unfold getFolderById at this
        rw [this]

/-- Replacing the rows of an existing id by a row of that id whose parent
assignment creates no cycle keeps the table acyclic: ranks are shifted
above the nodes from which the replaced folder was reachable. -/
theorem acyclic_replace (db : List Folder) (id : String) (f2 : Folder)
    (hacy : Acyclic db) (hid : f2.id = id) (hs : (getFolderById db id).isSome)
    (hnr : ∀ p, f2.parentId = some p → ¬ AncestorOrSelf db id p) :
    Acyclic (db.map (fun g => if g.id == id then f2 else g)) := by
  classical
  obtain ⟨rank, hr⟩ := hacy
  have key : ∀ x q : String, (if x = id then f2.parentId else parentOf db x) = some q →
      (if AncestorOrSelf db id q
        then rank q + (f2.parentId.map (fun p => rank p + 1)).getD 0 else rank q)
      < (if AncestorOrSelf db id x
        then rank x + (f2.parentId.map (fun p => rank p + 1)).getD 0 else rank x) := by
    intro x q hx
    by_cases hxid : x = id
    · rw [if_pos hxid] at hx
      subst hxid
      have hq := hnr q hx
      rw [if_neg hq, if_pos (show AncestorOrSelf db x x from Or.inl rfl)]
      rw [hx]
      simp
      omega
    · rw [if_neg hxid] at hx
      by_cases hrx : AncestorOrSelf db id x
      · have hrq : AncestorOrSelf db id q := by
          rcases hrx with he | hanc
          · exact absurd he hxid
          · cases hanc with
            | parent hp =>
              have h1 := hp.symm.trans hx
              rw [Option.some.injEq] at h1
              exact Or.inl h1.symm
            | trans hp hanc2 =>
              have h1 := hp.symm.trans hx
              rw [Option.some.injEq] at h1
              exact Or.inr (h1 ▸ hanc2)
        rw [if_pos hrx, if_pos hrq]
        have := hr x q hx
        omega
      · have hrq : ¬ AncestorOrSelf db id q := by
          intro hq
          apply hrx
          rcases hq with he | hanc
          · subst he
            exact Or.inr (IsAncestor.parent hx)
          · exact Or.inr (IsAncestor.trans hx hanc)
        rw [if_neg hrx, if_neg hrq]
        exact hr x q hx
  refine ⟨fun x => if AncestorOrSelf db id x
      then rank x + (f2.parentId.map (fun p => rank p + 1)).getD 0
      else rank x, ?_⟩
  intro x q hx
  have hpo : parentOf (db.map (fun g => if g.id == id then f2 else g)) x
      = if x = id then f2.parentId else parentOf db x := by
    unfold parentOf
    rw [getFolderById_replace db id f2 hid x]
    by_cases hxid : x = id
    · rw [if_pos hxid, if_pos hxid]
      cases hg : getFolderById db id with
      | none => rw [hg] at hs; exact absurd hs (by simp)
      | some g => simp
    · rw [if_neg hxid, if_neg hxid]
  rw [hpo] at hx
  exact key x q hx

/-- Keeping a stored parent assignment never creates a cycle in an
acyclic table. -/
theorem not_reach_parent (db : List Folder) (id : String) (f0 : Folder)
    (hacy : Acyclic db) (hloo : getFolderById db id = some f0)
    (p : String) (hp : f0.parentId = some p) :
    ¬ AncestorOrSelf db id p := by
  intro h
  have hpe : parentOf db id = some p := by
    unfold parentOf
    rw [hloo]
    simpa using hp
  rcases h with he | hanc
  · rw [he] at hpe
    exact acyclic_no_self_ancestor db hacy id (IsAncestor.parent hpe)
  · exact acyclic_no_self_ancestor db hacy id (IsAncestor.trans hpe hanc)

/-- The empty id, which no stored folder carries, is reachable only from
itself. -/
theorem not_reach_empty (db : List Folder) (id : String)
    (hids : ∀ f ∈ db, f.id ≠ "") (hidne : id ≠ "") :
    ¬ AncestorOrSelf db id "" := by
  intro h
  rcases h with he | hanc
  · exact hidne he.symm
  · cases hanc with
    | parent hp =>
      obtain ⟨g, hg, _⟩ := parentOf_eq_some db _ _ hp
      obtain ⟨hm, hi⟩ := getFolderById_eq_some db _ _ hg
      exact hids g hm hi
    | trans hp _ =>
      obtain ⟨g, hg, _⟩ := parentOf_eq_some db _ _ hp
      obtain ⟨hm, hi⟩ := getFolderById_eq_some db _ _ hg
      exact hids g hm hi

/-- Replacing the rows of an existing id by a row of that id whose parent
assignment creates no cycle preserves the module invariant. -/
theorem invF_replace (db : List Folder) (id : String) (f2 : Folder)
    (hinv : InvF db) (hid : f2.id = id) (hs : (getFolderById db id).isSome)
    (hnr : ∀ p, f2.parentId = some p → ¬ AncestorOrSelf db id p) :
    InvF (db.map (fun g => if g.id == id then f2 else g)) := by
  have hidne : id ≠ "" := by
    cases hf0 : getFolderById db id with
    | none => rw [hf0] at hs; exact absurd hs (by simp)
    | some f0 =>
      obtain ⟨hm, hi⟩ := getFolderById_eq_some db _ _ hf0
      exact hi ▸ hinv.2 f0 hm
  constructor
  · exact acyclic_replace db id f2 hinv.1 hid hs hnr
  · intro g hg
    rw [List.mem_map] at hg
    obtain ⟨g0, hg0, hgeq⟩ := hg
    subst hgeq
    by_cases h : (g0.id == id) = true
    · rw [if_pos h, hid]
      exact hidne
    · rw [if_neg h]
      exact hinv.2 g0 hg0

/-- createFolder with a fresh generated id preserves the module
invariant. -/
theorem invF_create (db : List Folder) (data : CreateFolderData) (newId : String)
    (now : Nat) (f : Folder) (db2 : List Folder)
    (hinv : InvF db) (hfresh : FreshFolderId db newId)
    (hdp : data.parentId ≠ some newId)
    (hc : createFolder db data newId now = .ok (f, db2)) : InvF db2 := by
  unfold createFolder at hc
  by_cases h1 : jsTrim data.name = ""
  · rw [if_pos h1] at hc
    exact absurd hc (by simp)
  rw [if_neg h1] at hc
  by_cases h2 : 100 < data.name.length
  · rw [if_pos h2] at hc
    exact absurd hc (by simp)
  rw [if_neg h2] at hc
  by_cases h3 : ((jsTruthy data.parentId).any fun p => !folderExists db p) = true
  · rw [if_pos h3] at hc
    exact absurd hc (by simp)
  rw [if_neg h3] at hc
  rw [Except.ok.injEq, Prod.mk.injEq] at hc
  obtain ⟨hfe, hdb2⟩ := hc
  subst hdb2
  constructor
  · obtain ⟨rank, hr⟩ := hinv.1
    have key : ∀ x q : String,
        parentOf (db ++ [(⟨newId, data.name, data.description, data.authorId,
            data.parentId, now, now⟩ : Folder)]) x = some q →
        (if q = newId then (data.parentId.map (fun p => rank p + 1)).getD 0 else rank q)
        < (if x = newId then (data.parentId.map (fun p => rank p + 1)).getD 0 else rank x) := by
      intro x q hx
      unfold parentOf at hx
      rw [getFolderById_append] at hx
      cases hgx : getFolderById db x with
      | some g =>
        rw [hgx] at hx
        rw [Option.or_some, Option.some_bind] at hx
        obtain ⟨hm, hi⟩ := getFolderById_eq_some db _ _ hgx
        have hxne : x ≠ newId := by
          intro he
          exact (hfresh.2 g hm).1 (hi.trans he)
        have hqne : q ≠ newId := by
          intro he
          rw [he] at hx
          exact (hfresh.2 g hm).2 hx
        rw [if_neg hqne, if_neg hxne]
        refine hr x q ?_
        unfold parentOf
        rw [hgx]
        simpa using hx
      | none =>
        rw [hgx] at hx
        by_cases hfx : ((⟨newId, data.name, data.description, data.authorId,
            data.parentId, now, now⟩ : Folder).id == x) = true
        · rw [if_pos hfx] at hx
          rw [Option.none_or, Option.some_bind] at hx
          have hxeq : x = newId := by
            have := hfx
            simp at this
            exact this.symm
          have hqne : q ≠ newId := by
            intro he
            rw [he] at hx
            exact hdp hx
          rw [if_neg hqne, if_pos hxeq]
          have hxp : data.parentId = some q := hx
          rw [hxp]
          simp
        · rw [if_neg hfx] at hx
          exact absurd hx (by simp)
    exact ⟨fun x => if x = newId
        then (data.parentId.map (fun p => rank p + 1)).getD 0 else rank x, key⟩
  · intro g hg
    rcases List.mem_append.mp hg with hgl | hgr
    · exact hinv.2 g hgl
    · rw [List.mem_singleton] at hgr
      subst hgr
      exact hfresh.1

/-- updateFolder preserves the module invariant: the circular-reference
walk guards every truthy parent assignment, and falsy assignments cannot
create a cycle. -/
theorem invF_update (db : List Folder) (id : String) (d : UpdateFolderData)
    (now : Nat) (f : Folder) (db2 : List Folder) (hinv : InvF db)
    (hu : updateFolder db id d now = .ok (f, db2)) : InvF db2 := by
  unfold updateFolder at hu
  cases hloo : getFolderById db id with
  | none =>
    rw [hloo] at hu
    exact absurd hu (by simp)
  | some f0 =>
    rw [hloo] at hu
    have hidne : id ≠ "" := by
      obtain ⟨hm, hi⟩ := getFolderById_eq_some db _ _ hloo
      exact hi ▸ hinv.2 f0 hm
    have hf0id : f0.id = id := (getFolderById_eq_some db _ _ hloo).2
    have hu2 : (match (match jsTruthy (d.parentId.getD none) with
        | some p => validateParentChild db p id
        | none => Except.ok ()) with
      | .error e => (.error e : Except FolderErr (Folder × List Folder))
      | .ok _ => .ok (applyFolderUpdate f0 d now,
          db.map (fun (g : Folder) => if g.id == id then applyFolderUpdate f0 d now else g)))
        = .ok (f, db2) := hu
    clear hu
    cases hjt : jsTruthy (d.parentId.getD none) with
    | none =>
      rw [hjt] at hu2
      have hu3 : (Except.ok (applyFolderUpdate f0 d now,
          db.map (fun g => if g.id == id then applyFolderUpdate f0 d now else g))
          : Except FolderErr (Folder × List Folder)) = .ok (f, db2) := hu2
      rw [Except.ok.injEq, Prod.mk.injEq] at hu3
      obtain ⟨hf2, hdb2⟩ := hu3
      subst hdb2
      refine invF_replace db id (applyFolderUpdate f0 d now) hinv hf0id
        (by rw [hloo]; rfl) ?_
      intro p hp
      cases hdp2 : d.parentId with
      | none =>
        refine not_reach_parent db id f0 hinv.1 hloo p ?_
        have : (applyFolderUpdate f0 d now).parentId = f0.parentId := by
          simp [applyFolderUpdate, hdp2]
        rw [← this]
        exact hp
      | some v =>
        cases v with
        | none =>
          have : (applyFolderUpdate f0 d now).parentId = none := by
            simp [applyFolderUpdate, hdp2]
          rw [this] at hp
          exact absurd hp (by simp)
        | some s =>
          have hse : s = "" := by
            rw [hdp2] at hjt
            simp only [Option.getD_some, jsTruthy] at hjt
            by_cases hs0 : s = ""
            · exact hs0
            · rw [if_neg hs0] at hjt
              exact absurd hjt (by simp)
          have hps : (applyFolderUpdate f0 d now).parentId = some s := by
            simp [applyFolderUpdate, hdp2]
          rw [hps] at hp
          rw [Option.some.injEq] at hp
          rw [← hp, hse]
          exact not_reach_empty db id hinv.2 hidne
    | some p =>
      rw [hjt] at hu2
      have hu3 : (match validateParentChild db p id with
        | .error e => (.error e : Except FolderErr (Folder × List Folder))
        | .ok _ => .ok (applyFolderUpdate f0 d now,
            db.map (fun (g : Folder) => if g.id == id then applyFolderUpdate f0 d now else g)))
          = .ok (f, db2) := hu2
      clear hu2
      cases hval : validateParentChild db p id with
      | error e =>
        rw [hval] at hu3
        exact absurd hu3 (by simp)
      | ok u =>
        cases u
        rw [hval] at hu3
        have hu4 : (Except.ok (applyFolderUpdate f0 d now,
            db.map (fun g => if g.id == id then applyFolderUpdate f0 d now else g))
            : Except FolderErr (Folder × List Folder)) = .ok (f, db2) := hu3
        rw [Except.ok.injEq, Prod.mk.injEq] at hu4
        obtain ⟨hf2, hdb2⟩ := hu4
        subst hdb2
        refine invF_replace db id (applyFolderUpdate f0 d now) hinv hf0id
          (by rw [hloo]; rfl) ?_
        intro p2 hp2
        have hpd : d.parentId.getD f0.parentId = some p2 := hp2
        have hpp : p2 = p := by
          cases hdp2 : d.parentId with
          | none =>
            rw [hdp2] at hjt
            exact absurd hjt (by simp [jsTruthy])
          | some v =>
            cases v with
            | none =>
              rw [hdp2] at hjt
              exact absurd hjt (by simp [jsTruthy])
            | some s =>
              rw [hdp2] at hjt hpd
              simp only [Option.getD_some, jsTruthy] at hjt
              by_cases hs0 : s = ""
              · rw [if_pos hs0] at hjt
                exact absurd hjt (by simp)
              · rw [if_neg hs0] at hjt
                rw [Option.some.injEq] at hjt
                simp only [Option.getD_some] at hpd
                rw [Option.some.injEq] at hpd
                rw [← hpd, ← hjt]
        rw [hpp]
        exact validateParentChild_ok db hinv.1 p id hval

/-- deleteFolder preserves the module invariant: removing rows removes
edges. -/
theorem invF_delete (db : List Folder) (id : String) (f : Folder)
    (db2 : List Folder) (hinv : InvF db)
    (hd : deleteFolder db id = .ok (f, db2)) : InvF db2 := by
  unfold deleteFolder at hd
  cases hloo : getFolderById db id with
  | none =>
    rw [hloo] at hd
    exact absurd hd (by simp)
  | some f0 =>
    rw [hloo] at hd
    rw [Except.ok.injEq, Prod.mk.injEq] at hd
    obtain ⟨h1, h2⟩ := hd
    subst h2
    constructor
    · obtain ⟨rank, hr⟩ := hinv.1
      refine ⟨rank, fun x q hx => ?_⟩
      unfold parentOf at hx
      rw [getFolderById_erase] at hx
      by_cases hxid : x = id
      · rw [if_pos hxid] at hx
        exact absurd hx (by simp)
      · rw [if_neg hxid] at hx
        exact hr x q hx
    · intro g hg
      exact hinv.2 g (List.mem_of_mem_filter hg)

/-- Every reachable folder table satisfies the module invariant. -/
theorem reachableF_inv (db : List Folder) (h : ReachableF db) : InvF db := by
  induction h with
  | empty =>
    refine ⟨⟨fun _ => 0, fun x p hp => ?_⟩, by simp⟩
    unfold parentOf getFolderById at hp
    simp at hp
  | create _ hfresh hdp hc ih => exact invF_create _ _ _ _ _ _ ih hfresh hdp hc
  | update _ hu ih => exact invF_update _ _ _ _ _ _ ih hu
  | delete _ hd ih => exact invF_delete _ _ _ _ ih hd

/-- C1: in every reachable state the folder hierarchy is acyclic — no
folder is ever its own ancestor — and an attempt to update a folder's
parentId to its own id or to the id of any of its descendants fails with
the cycle-detection FolderError (own-parent or circular-reference),
leaving the table, and in particular the folder's row and parentId,
unchanged. -/
theorem folder_hierarchy_acyclic (db : List Folder) (hreach : ReachableF db) :
    (Acyclic db ∧ ∀ x, ¬ IsAncestor db x x) ∧
    (∀ (fid dsc : String) (f : Folder) (upd : UpdateFolderData) (now : Nat),
      getFolderById db fid = some f →
      upd.parentId = some (some dsc) →
      (dsc = fid ∨ IsAncestor db fid dsc) →
      (updateFolder db fid upd now = .error .ownParent ∨
        updateFolder db fid upd now = .error .circular) ∧
      runUpdateFolder db fid upd now = db ∧
      getFolderById (runUpdateFolder db fid upd now) fid = some f) := by
  have hinv := reachableF_inv db hreach
  refine ⟨⟨hinv.1, fun x => acyclic_no_self_ancestor db hinv.1 x⟩, ?_⟩
  intro fid dsc f upd now hf hupd hdsc
  have hfid : f.id = fid := (getFolderById_eq_some db _ _ hf).2
  have hfidne : fid ≠ "" := by
    have := hinv.2 f (getFolderById_eq_some db _ _ hf).1
    exact hfid ▸ this
  have hdscne : dsc ≠ "" := by
    rcases hdsc with he | hanc
    · rw [he]
      exact hfidne
    · intro he0
      rw [he0] at hanc
      cases hanc with
      | parent hp =>
        obtain ⟨g, hg, _⟩ := parentOf_eq_some db _ _ hp
        obtain ⟨hm, hi⟩ := getFolderById_eq_some db _ _ hg
        exact hinv.2 g hm hi
      | trans hp _ =>
        obtain ⟨g, hg, _⟩ := parentOf_eq_some db _ _ hp
        obtain ⟨hm, hi⟩ := getFolderById_eq_some db _ _ hg
        exact hinv.2 g hm hi
  have hverr : validateParentChild db dsc fid = .error .ownParent ∨
      validateParentChild db dsc fid = .error .circular := by
    by_cases he : dsc = fid
    · left
      rw [he]
      exact validateParentChild_self db fid
    · right
      rcases hdsc with he2 | hanc
      · exact absurd he2 he
      · exact validateParentChild_detects db hinv.1 fid dsc he hanc
  have hjt : jsTruthy (upd.parentId.getD none) = some dsc := by
    rw [hupd]
    simp only [Option.getD_some, jsTruthy]
    rw [if_neg hdscne]
  have hrun : ∀ r, validateParentChild db dsc fid = .error r →
      updateFolder db fid upd now = .error r := by
    intro r hv
    have hgoal : (match (match jsTruthy (upd.parentId.getD none) with
        | some p => validateParentChild db p fid
        | none => Except.ok ()) with
      | .error e => (.error e : Except FolderErr (Folder × List Folder))
      | .ok _ => .ok (applyFolderUpdate f upd now,
          db.map (fun (g : Folder) => if g.id == fid then applyFolderUpdate f upd now else g)))
        = .error r := by
      rw [hjt]
      have h2 : (match validateParentChild db dsc fid with
        | .error e => (.error e : Except FolderErr (Folder × List Folder))
        | .ok _ => .ok (applyFolderUpdate f upd now,
            db.map (fun (g : Folder) => if g.id == fid then applyFolderUpdate f upd now else g)))
          = .error r := by
        rw [hv]
      exact h2
    unfold updateFolder
    rw [hf]
    exact hgoal
  rcases hverr with hv | hv
  · have hupd2 := hrun _ hv
    have hrunEq : runUpdateFolder db fid upd now = db := by
      unfold runUpdateFolder
      rw [hupd2]
    refine ⟨Or.inl hupd2, hrunEq, ?_⟩
    rw [hrunEq]
    exact hf
  · have hupd2 := hrun _ hv
    have hrunEq : runUpdateFolder db fid upd now = db := by
      unfold runUpdateFolder
      rw [hupd2]
    refine ⟨Or.inr hupd2, hrunEq, ?_⟩
    rw [hrunEq]
    exact hf

/-- Witness for C1: in the reachable two-folder table, moving the root
under its child fails with the circular-reference error and leaves the
table unchanged. -/
theorem folder_hierarchy_acyclic_witness :
    (updateFolder folderDbW "r" folderUpdW 2 = .error .ownParent ∨
      updateFolder folderDbW "r" folderUpdW 2 = .error .circular) ∧
    runUpdateFolder folderDbW "r" folderUpdW 2 = folderDbW ∧
    getFolderById (runUpdateFolder folderDbW "r" folderUpdW 2) "r" = some folderRootW := by
  have hfr1 : FreshFolderId [] "r" :=
    ⟨by decide, fun f hf => absurd hf (List.not_mem_nil f)⟩
  have hdp1 : (⟨"Root", "u1", none, none⟩ : CreateFolderData).parentId ≠ some "r" := by
    decide
  have hc1 : createFolder [] ⟨"Root", "u1", none, none⟩ "r" 0
      = .ok (folderRootW, [folderRootW]) := rfl
  have h1 : ReachableF [folderRootW] := ReachableF.create ReachableF.empty hfr1 hdp1 hc1
  have hfr2 : FreshFolderId [folderRootW] "c" := ⟨by decide, by decide⟩
  have hdp2 : (⟨"Child", "u1", some "r", none⟩ : CreateFolderData).parentId ≠ some "c" := by
    decide
  have hc2 : createFolder [folderRootW] ⟨"Child", "u1", some "r", none⟩ "c" 1
      = .ok (folderChildW, folderDbW) := rfl
  have h2 : ReachableF folderDbW := ReachableF.create h1 hfr2 hdp2 hc2
  exact (folder_hierarchy_acyclic folderDbW h2).2 "r" "c" folderRootW folderUpdW 2 rfl rfl
    (Or.inr (IsAncestor.parent (show parentOf folderDbW "c" = some "r" from rfl)))

end Nuclear
